import Mathlib

/-!
Shallow embedding of the realtime speech-to-text client `stt.py`:
the bounded audio frame queue, the sender loop (`send_audio`), the
receiver loop (`receive_events`), credential loading (`load_api_key`),
connection-target construction (`make_ws_url`), and the process entry
point (`main`).  Python byte strings are modelled as `List Nat` (each
element a byte value), wall-clock times returned by the event loop as
rationals, and optional JSON fields as `Option`.
-/

namespace Stt

/-! ### Bounded frame queue

`run` creates `asyncio.Queue(maxsize=32)`; the capture callback's
`enqueue` evicts the oldest entry with `get_nowait()` when the queue is
full before `put_nowait(chunk)`. -/

/-- Queue capacity fixed in `run`: `asyncio.Queue(maxsize=32)`. -/
def queueCapacity : Nat := 32

/-- One `enqueue()` call from the capture callback: if the queue is full
(`qsize ≥ maxsize`), drop the oldest entry, then append the new chunk.
The queue is kept oldest-first. -/
def enqueue (q : List α) (c : α) : List α :=
  (if queueCapacity ≤ q.length then q.tail else q) ++ [c]

/-- A sequence of `enqueue()` calls with no intervening dequeues. -/
def enqueueAll (q : List α) (cs : List α) : List α :=
  cs.foldl enqueue q

/-! ### Sender loop (`send_audio`)

`send_audio` dequeues chunks forever; per chunk it builds a JSON payload
with `message_type`, `audio_base_64`, `sample_rate`, conditionally
`commit` (manual strategy only) and `previous_text` (first chunk only).
We model one loop iteration as a pure step function over the loop state
`(first_chunk, last_commit_at)` fed with the dequeued chunk and the
event-loop time observed at that iteration. -/

/-- Standard base64 alphabet used by Python's `base64.b64encode`. -/
def b64Alphabet : List Char :=
  "ABCDEFGHIJKLMNOPQRSTUVWXYZabcdefghijklmnopqrstuvwxyz0123456789+/".data

/-- The base64 digit for a 6-bit group. -/
def b64Char (n : Nat) : Char := b64Alphabet.getD n 'A'

/-- RFC 4648 base64 of a byte sequence, with `=` padding; models
`base64.b64encode(chunk)`. -/
def b64encodeBytes : List Nat → List Char
  | [] => []
  | [b1] => [b64Char (b1 / 4), b64Char (b1 % 4 * 16), '=', '=']
  | [b1, b2] =>
    [b64Char (b1 / 4), b64Char (b1 % 4 * 16 + b2 / 16), b64Char (b2 % 16 * 4), '=']
  | b1 :: b2 :: b3 :: rest =>
    b64Char (b1 / 4) :: b64Char (b1 % 4 * 16 + b2 / 16) ::
      b64Char (b2 % 16 * 4 + b3 / 64) :: b64Char (b3 % 64) :: b64encodeBytes rest

/-- `base64.b64encode(chunk).decode("ascii")`. -/
def b64encode (bs : List Nat) : String := ⟨b64encodeBytes bs⟩

/-- One outbound WebSocket message produced by `send_audio`
(the `payload` dict); `commit` and `previousText` are `none` when the
corresponding key is absent from the dict. -/
structure OutMsg where
  messageType : String
  audioBase64 : String
  sampleRate : Nat
  commit : Option Bool
  previousText : Option String
deriving DecidableEq, Inhabited

/-- Loop-carried state of `send_audio`: the `first_chunk` flag and
`last_commit_at`. -/
structure SendState where
  firstChunk : Bool
  lastCommitAt : ℚ
deriving DecidableEq

/-- One iteration of the `send_audio` loop body for a dequeued `chunk`,
where `now` is the event-loop time observed in this iteration (times
are modelled as rationals). -/
def sendStep (strategy : String) (manualCommitSecs : ℚ) (previousText : Option String)
    (sampleRate : Nat) (st : SendState) (chunk : List Nat) (now : ℚ) :
    SendState × OutMsg :=
  let base : OutMsg :=
    { messageType := "input_audio_chunk"
      audioBase64 := b64encode chunk
      sampleRate := sampleRate
      commit := none
      previousText := none }
  let withCommit : OutMsg × ℚ :=
    if strategy = "manual" then
      let shouldCommit : Bool := manualCommitSecs ≤ now - st.lastCommitAt
      ({ base with commit := some shouldCommit },
       if shouldCommit then now else st.lastCommitAt)
    else
      (base, st.lastCommitAt)
  let msg : OutMsg :=
    if st.firstChunk && (previousText.getD "" != "") then
      { withCommit.1 with previousText := previousText }
    else
      withCommit.1
  (⟨false, withCommit.2⟩, msg)

/-- The messages sent by the `send_audio` loop over a finite prefix of
dequeued `(chunk, now)` pairs, starting from loop state `st`. -/
def sendRun (strategy : String) (manualCommitSecs : ℚ) (previousText : Option String)
    (sampleRate : Nat) (st : SendState) : List (List Nat × ℚ) → List OutMsg
  | [] => []
  | (c, t) :: rest =>
    let r := sendStep strategy manualCommitSecs previousText sampleRate st c t
    r.2 :: sendRun strategy manualCommitSecs previousText sampleRate r.1 rest

/-- `send_audio` from its start: `first_chunk = True` and
`last_commit_at` initialised to the loop time `t0` at session start. -/
def sendAudio (strategy : String) (manualCommitSecs : ℚ) (previousText : Option String)
    (sampleRate : Nat) (t0 : ℚ) (inputs : List (List Nat × ℚ)) : List OutMsg :=
  sendRun strategy manualCommitSecs previousText sampleRate ⟨true, t0⟩ inputs

/-- Spec-side reference: "the last `commit=true` time, or session
start": folds over earlier (commit-flag, dequeue-time) pairs of the
output, keeping the time of the last message whose `commit` was
`some true`. -/
def lastTrueBefore (t0 : ℚ) (pairs : List (Option Bool × ℚ)) : ℚ :=
  pairs.foldl (fun r p => if p.1 = some true then p.2 else r) t0

/-! ### Receiver loop (`receive_events`) -/

/-- `leadsWith p l` is true when `p` is a leading segment of `l`;
building block for the substring test below. -/
def leadsWith : List Char → List Char → Bool
  | [], _ => true
  | _ :: _, [] => false
  | p :: ps, c :: cs => p == c && leadsWith ps cs

/-- `containsSub pat l`: some suffix of `l` starts with `pat`; models
Python's substring operator `in`. -/
def containsSub (pat : List Char) : List Char → Bool
  | [] => leadsWith pat []
  | c :: cs => leadsWith pat (c :: cs) || containsSub pat cs

/-- Python's `"error" in msg_type`. -/
def hasErrorMarker (s : String) : Bool := containsSub "error".data s.data

/-- Drop elements satisfying `p` from both ends; the list-level core of
Python's `str.strip`. -/
def stripEnds (p : Char → Bool) (l : List Char) : List Char :=
  ((l.dropWhile p).reverse.dropWhile p).reverse

/-- Python `s.strip()` (whitespace removed from both ends). -/
def pyStrip (s : String) : String := ⟨stripEnds Char.isWhitespace s.data⟩

/-- Python `s.strip(c)` for a single character `c`. -/
def pyStripChar (c : Char) (s : String) : String := ⟨stripEnds (· == c) s.data⟩

/-- An inbound WebSocket event as used by `receive_events`:
`message_type` (with the dict-lookup default `""`), and the optional
`text` and `session_id` fields. -/
structure Event where
  messageType : String
  text : Option String
  sessionId : Option String
deriving DecidableEq, Inhabited

/-- Rendering of an optional field inside an f-string (`None` when the
field is missing). -/
def optStr : Option String → String
  | some s => s
  | none => "None"

/-- One item written to stdout by `receive_events`: a raw
`sys.stdout.write` chunk (no newline added), a `print`ed line (newline
added), or the raw-event dump `print(f"[{msg_type}] {event}")`. -/
inductive Out where
  | chunk (s : String)
  | line (s : String)
  | rawEvent (msgType : String) (e : Event)
deriving DecidableEq

/-- `Out.line` outputs (the `print` calls that end a line). -/
def isLine : Out → Bool
  | Out.line _ => true
  | _ => false

/-- Finalized-transcript lines (`print(f"[final]   {text}")`). -/
def isFinalLine : Out → Bool
  | Out.line s => leadsWith "[final]".data s.data
  | _ => false

/-- String starts with a carriage return. -/
def startsWithCR (s : String) : Bool := leadsWith "\r".data s.data

/-- String ends with a newline character. -/
def endsWithNewline (s : String) : Bool :=
  match s.data.getLast? with
  | some c => c == '\n'
  | none => false

/-- One iteration of the `receive_events` dispatch for one inbound
event; the state is the `partial_line_active` flag.  Branches follow
the source order. -/
def stepEvent (active : Bool) (e : Event) : Bool × List Out :=
  let t := e.messageType
  if t = "session_started" then
    (active, [Out.line ("Session started: " ++ optStr e.sessionId)])
  else if t = "partial_transcript" then
    let txt := pyStrip (e.text.getD "")
    if txt ≠ "" then
      (true, [Out.chunk ("\r[partial] " ++ txt ++ "   ")])
    else (active, [])
  else if t = "committed_transcript" ∨ t = "committed_transcript_with_timestamps" then
    let txt := pyStrip (e.text.getD "")
    if txt ≠ "" then
      (false, (if active then [Out.chunk "\n"] else []) ++ [Out.line ("[final]   " ++ txt)])
    else (active, [])
  else if hasErrorMarker t then
    (false, (if active then [Out.chunk "\n"] else []) ++ [Out.rawEvent t e])
  else
    (active, [Out.rawEvent t e])

/-- The receive loop over a finite prefix of inbound events, returning
the final `partial_line_active` flag and everything written. -/
def runEvents (active : Bool) : List Event → Bool × List Out
  | [] => (active, [])
  | e :: es =>
    let r := stepEvent active e
    let rest := runEvents r.1 es
    (rest.1, r.2 ++ rest.2)

/-! ### Credential loading (`load_api_key`) and connection setup -/

/-- One line of `~/.env` as scanned by `load_api_key`: strip, skip
blanks / comments / lines without `=`, split at the first `=`, accept
only the `ELEVENLABS_API_KEY` variable, clean the value with
`.strip().strip("'").strip('"')`, and return it only if non-empty. -/
def parseEnvLine (rawLine : String) : Option String :=
  let line := pyStrip rawLine
  if line = "" || leadsWith "#".data line.data || !(line.data.contains '=') then
    none
  else
    let varName : String := ⟨line.data.takeWhile (fun c => !(c == '='))⟩
    let varValue : String := ⟨(line.data.dropWhile (fun c => !(c == '='))).tail⟩
    if pyStrip varName ≠ "ELEVENLABS_API_KEY" then none
    else
      let cleaned := pyStripChar '"' (pyStripChar '\'' (pyStrip varValue))
      if cleaned ≠ "" then some cleaned else none

/-- `load_api_key`: the environment variable when truthy (non-empty),
else the first valid `~/.env` entry, else a `RuntimeError`.  `envKey`
is `os.getenv("ELEVENLABS_API_KEY")`; `homeEnvLines` is the dotfile's
line list when `~/.env` exists. -/
def load_api_key (envKey : Option String) (homeEnvLines : Option (List String)) :
    Except String String :=
  if envKey.getD "" ≠ "" then Except.ok (envKey.getD "")
  else
    match homeEnvLines with
    | some lines =>
      match lines.findSome? parseEnvLine with
      | some k => Except.ok k
      | none => Except.error "ELEVENLABS_API_KEY not found. Set it in env or in ~/.env."
    | none => Except.error "ELEVENLABS_API_KEY not found. Set it in env or in ~/.env."

/-- Query-string pairs joined as `k=v&...`; models `urlencode` for the
reserved-character-free values used here. -/
def urlencodePairs (ps : List (String × String)) : String :=
  String.intercalate "&" (ps.map (fun p => p.1 ++ "=" ++ p.2))

/-- `make_ws_url`: fixed endpoint plus query parameters in dict
insertion order, with `language_code` appended only when a truthy
(non-empty) language was given. -/
def make_ws_url (model : String) (sampleRate : Nat) (commitStrategy : String)
    (timestamps : Bool) (language : Option String) : String :=
  let params :=
    [("model_id", model),
     ("audio_format", "pcm_" ++ toString sampleRate),
     ("commit_strategy", commitStrategy),
     ("include_timestamps", if timestamps then "true" else "false")]
  let params := params ++
    (match language with
     | some l => if l ≠ "" then [("language_code", l)] else []
     | none => [])
  "wss://api.elevenlabs.io/v1/speech-to-text/realtime?" ++ urlencodePairs params

/-- Externally visible actions of `run` before the streaming loops. -/
inductive RunAction where
  | connectAttempt (url : String)
deriving DecidableEq

/-- The prefix of `run` up to the connection attempt: `load_api_key`
runs on `run`'s first line; only on success does control reach
`websockets.connect`.  Returns the actions performed and the raised
error, if any. -/
def runStartup (envKey : Option String) (homeEnvLines : Option (List String))
    (model : String) (sampleRate : Nat) (commitStrategy : String)
    (timestamps : Bool) (language : Option String) :
    List RunAction × Option String :=
  match load_api_key envKey homeEnvLines with
  | Except.error e => ([], some e)
  | Except.ok _ =>
    ([RunAction.connectAttempt
        (make_ws_url model sampleRate commitStrategy timestamps language)], none)

/-! ### Entry point (`main`) -/

/-- How `asyncio.run(run(args))` ends, as observed by `main`'s
`try/except` blocks. -/
inductive RunOutcome where
  | completed
  | keyboardInterrupt
  | failure (msg : String)
deriving DecidableEq

/-- `main`'s return value: `1` when dependencies are missing, `0` for
`--list-devices`, else `0`/`0`/`1` for completion / `KeyboardInterrupt`
/ any other exception from the run. -/
def mainExit (missingDeps : List String) (listDevices : Bool) (outcome : RunOutcome) : Nat :=
  if missingDeps ≠ [] then 1
  else if listDevices then 0
  else
    match outcome with
    | RunOutcome.completed => 0
    | RunOutcome.keyboardInterrupt => 0
    | RunOutcome.failure _ => 1

/-! ### Queue lemmas -/

theorem enqueue_length_le (q : List α) (c : α) (h : q.length ≤ queueCapacity) :
    (enqueue q c).length ≤ queueCapacity := by
  unfold enqueue
  split
  · next hfull =>
    have : q.length = queueCapacity := le_antisymm h hfull
    simp [List.length_append, List.length_tail, this, queueCapacity]
  · next hfull =>
    have : q.length < queueCapacity := lt_of_not_le hfull
    simp [List.length_append]
    omega

theorem enqueueAll_eq (cs : List α) : ∀ (q : List α), q.length ≤ queueCapacity →
    enqueueAll q cs = (q ++ cs).drop (q.length + cs.length - queueCapacity) := by
  induction cs with
  | nil =>
    intro q h
    simp [enqueueAll, Nat.sub_eq_zero_of_le h]
  | cons c cs ih =>
    intro q h
    have step : enqueueAll q (c :: cs) = enqueueAll (enqueue q c) cs := rfl
    rw [step, ih _ (enqueue_length_le q c h)]
    unfold enqueue
    split
    · next hfull =>
      have hq : q.length = queueCapacity := le_antisymm h hfull
      have hne : q ≠ [] := by
        intro hnil
        rw [hnil] at hq
        simp [queueCapacity] at hq
      obtain ⟨x, xs, hx⟩ := List.exists_cons_of_ne_nil hne
      subst hx
      simp only [List.length_append, List.length_tail, List.length_cons,
        List.length_singleton, List.tail_cons]
      rw [List.length_cons] at hq
      have h2 : xs.length + 1 + (cs.length + 1) - queueCapacity
          = (xs.length + 1 + cs.length - queueCapacity) + 1 := by omega
      rw [h2]
      simp only [List.cons_append, List.drop_succ_cons]
      rw [List.append_assoc]
      simp [show xs.length + 1 - 1 + 1 + cs.length - queueCapacity
          = xs.length + 1 + cs.length - queueCapacity by omega]
    · next hfull =>
      simp only [List.length_append, List.length_singleton, List.length_cons]
      rw [List.append_assoc]
      simp [show q.length + 1 + cs.length - queueCapacity
          = q.length + (cs.length + 1) - queueCapacity by omega]

/-! ### Sender lemmas -/

theorem sendStep_commit_manual (secs : ℚ) (pt : Option String) (sr : Nat)
    (st : SendState) (c : List Nat) (t : ℚ) :
    ((sendStep "manual" secs pt sr st c t).2).commit
      = some (decide (secs ≤ t - st.lastCommitAt)) := by
  simp only [sendStep]
  split <;> rfl

theorem sendStep_fst_manual (secs : ℚ) (pt : Option String) (sr : Nat)
    (st : SendState) (c : List Nat) (t : ℚ) :
    (sendStep "manual" secs pt sr st c t).1
      = ⟨false, if secs ≤ t - st.lastCommitAt then t else st.lastCommitAt⟩ := by
  simp only [sendStep]
  split
  · next h => simp
  · next h => exact absurd trivial h

theorem sendStep_commit_vad (secs : ℚ) (pt : Option String) (sr : Nat)
    (st : SendState) (c : List Nat) (t : ℚ) :
    ((sendStep "vad" secs pt sr st c t).2).commit = none := by
  have hne : ("vad" : String) = "manual" ↔ False := by simp
  simp only [sendStep, hne, if_false]
  split <;> rfl

theorem sendRun_vad_commit (secs : ℚ) (pt : Option String) (sr : Nat) :
    ∀ (inputs : List (List Nat × ℚ)) (st : SendState),
      ∀ m ∈ sendRun "vad" secs pt sr st inputs, m.commit = none := by
  intro inputs
  induction inputs with
  | nil => intro st m hm; simp [sendRun] at hm
  | cons p rest ih =>
    intro st m hm
    obtain ⟨c, t⟩ := p
    simp only [sendRun, List.mem_cons] at hm
    rcases hm with hm | hm
    · rw [hm]; exact sendStep_commit_vad secs pt sr st c t
    · exact ih _ m hm

theorem sendRun_length (strategy : String) (secs : ℚ) (pt : Option String) (sr : Nat) :
    ∀ (inputs : List (List Nat × ℚ)) (st : SendState),
      (sendRun strategy secs pt sr st inputs).length = inputs.length := by
  intro inputs
  induction inputs with
  | nil => intro st; rfl
  | cons p rest ih =>
    intro st
    obtain ⟨c, t⟩ := p
    simp [sendRun, ih]

theorem sendRun_manual_commit (secs : ℚ) (pt : Option String) (sr : Nat) :
    ∀ (inputs : List (List Nat × ℚ)) (fc : Bool) (r : ℚ) (i : Nat), i < inputs.length →
      ((sendRun "manual" secs pt sr ⟨fc, r⟩ inputs).getD i default).commit
        = some (decide (secs ≤ (inputs.getD i default).2 -
            lastTrueBefore r ((((sendRun "manual" secs pt sr ⟨fc, r⟩ inputs).map
              OutMsg.commit).zip (inputs.map Prod.snd)).take i))) := by
  intro inputs
  induction inputs with
  | nil => intro fc r i h; simp at h
  | cons p rest ih =>
    intro fc r i h
    obtain ⟨c, t⟩ := p
    have hrun : sendRun "manual" secs pt sr ⟨fc, r⟩ ((c, t) :: rest)
        = (sendStep "manual" secs pt sr ⟨fc, r⟩ c t).2 ::
          sendRun "manual" secs pt sr (sendStep "manual" secs pt sr ⟨fc, r⟩ c t).1 rest := rfl
    have hst : (sendStep "manual" secs pt sr ⟨fc, r⟩ c t).1
        = (⟨false, if secs ≤ t - r then t else r⟩ : SendState) :=
      sendStep_fst_manual secs pt sr ⟨fc, r⟩ c t
    have hcm : ((sendStep "manual" secs pt sr ⟨fc, r⟩ c t).2).commit
        = some (decide (secs ≤ t - r)) :=
      sendStep_commit_manual secs pt sr ⟨fc, r⟩ c t
    rw [hrun, hst]
    cases i with
    | zero =>
      simpa only [List.getD_cons_zero, List.take_zero, lastTrueBefore,
        List.foldl_nil] using hcm
    | succ j =>
      have hj : j < rest.length := by simpa using h
      simp only [List.getD_cons_succ, List.map_cons, List.zip_cons_cons,
        List.take_succ_cons, lastTrueBefore, List.foldl_cons, hcm,
        Option.some.injEq, decide_eq_true_eq]
      exact ih false (if secs ≤ t - r then t else r) j hj

theorem sendStep_audio (strategy : String) (secs : ℚ) (pt : Option String) (sr : Nat)
    (st : SendState) (c : List Nat) (t : ℚ) :
    ((sendStep strategy secs pt sr st c t).2).audioBase64 = b64encode c := by
  simp only [sendStep]
  split <;> split <;> rfl

theorem sendStep_prevText (strategy : String) (secs : ℚ) (pt : Option String) (sr : Nat)
    (st : SendState) (c : List Nat) (t : ℚ) :
    ((sendStep strategy secs pt sr st c t).2).previousText
      = if st.firstChunk && (pt.getD "" != "") then pt else none := by
  simp only [sendStep]
  split <;> split <;> rfl

theorem sendStep_fst_firstChunk (strategy : String) (secs : ℚ) (pt : Option String)
    (sr : Nat) (st : SendState) (c : List Nat) (t : ℚ) :
    (sendStep strategy secs pt sr st c t).1.firstChunk = false := rfl

theorem sendRun_audio (strategy : String) (secs : ℚ) (pt : Option String) (sr : Nat) :
    ∀ (inputs : List (List Nat × ℚ)) (st : SendState),
      (sendRun strategy secs pt sr st inputs).map OutMsg.audioBase64
        = inputs.map (fun p => b64encode p.1) := by
  intro inputs
  induction inputs with
  | nil => intro st; rfl
  | cons p rest ih =>
    intro st
    obtain ⟨c, t⟩ := p
    simp [sendRun, ih, sendStep_audio]

theorem sendRun_prevText_of_notFirst (strategy : String) (secs : ℚ)
    (pt : Option String) (sr : Nat) :
    ∀ (inputs : List (List Nat × ℚ)) (st : SendState), st.firstChunk = false →
      ∀ m ∈ sendRun strategy secs pt sr st inputs, m.previousText = none := by
  intro inputs
  induction inputs with
  | nil => intro st hst m hm; simp [sendRun] at hm
  | cons p rest ih =>
    intro st hst m hm
    obtain ⟨c, t⟩ := p
    simp only [sendRun, List.mem_cons] at hm
    rcases hm with hm | hm
    · rw [hm, sendStep_prevText, hst]
      simp
    · exact ih _ (sendStep_fst_firstChunk _ _ _ _ _ _ _) m hm

/-! ### Receiver lemmas -/

theorem runEvents_cons (a : Bool) (e : Event) (es : List Event) :
    runEvents a (e :: es)
      = ((runEvents (stepEvent a e).1 es).1,
         (stepEvent a e).2 ++ (runEvents (stepEvent a e).1 es).2) := rfl

theorem stepEvent_countFinal_le_one (a : Bool) (e : Event) :
    List.countP isFinalLine ((stepEvent a e).2) ≤ 1 := by
  obtain ⟨t, txt, sid⟩ := e
  cases a <;>
    · simp only [stepEvent]
      split_ifs <;>
        simp [isFinalLine, List.countP_cons, List.countP_nil] <;>
        split_ifs <;> omega

theorem stepEvent_provisional_empty (a : Bool) (txt : Option String) (sid : Option String)
    (h : pyStrip (txt.getD "") = "") :
    stepEvent a ⟨"partial_transcript", txt, sid⟩ = (a, []) := by
  simp [stepEvent, h]

theorem stepEvent_committed_empty (a : Bool) (txt : Option String) (sid : Option String)
    (h : pyStrip (txt.getD "") = "") :
    stepEvent a ⟨"committed_transcript", txt, sid⟩ = (a, []) := by
  simp [stepEvent, h]

theorem stepEvent_committed_ts_empty (a : Bool) (txt : Option String) (sid : Option String)
    (h : pyStrip (txt.getD "") = "") :
    stepEvent a ⟨"committed_transcript_with_timestamps", txt, sid⟩ = (a, []) := by
  simp [stepEvent, h]

/-! ### Claim theorems -/

/-- C1: any sequence of enqueues exceeding the capacity (32) with no
intervening dequeues leaves the queue holding exactly the 32 most
recently enqueued frames, in their original relative order, and the
length never exceeds (here: equals) the capacity. -/
theorem queue_retains_last_capacity (cs : List Nat) (h : queueCapacity < cs.length) :
    enqueueAll ([] : List Nat) cs = cs.drop (cs.length - queueCapacity)
    ∧ (enqueueAll ([] : List Nat) cs).length = queueCapacity := by
  have he := enqueueAll_eq cs ([] : List Nat) (by simp [queueCapacity])
  simp only [List.nil_append, List.length_nil, Nat.zero_add] at he
  refine ⟨he, ?_⟩
  rw [he, List.length_drop]
  omega

/-- Witness for C1 at 33 enqueued frames. -/
theorem queue_retains_last_capacity_witness :
    enqueueAll ([] : List Nat) (List.range 33) = (List.range 33).drop 1
    ∧ (enqueueAll ([] : List Nat) (List.range 33)).length = queueCapacity := by
  have h := queue_retains_last_capacity (List.range 33) (by decide)
  have e : (List.range 33).length - queueCapacity = 1 := by decide
  rwa [e] at h

/-- C2: under the `manual` strategy a message carries `commit = true`
iff the elapsed time from the last `commit = true` message (or session
start `t0`) to its dequeue time is at least `manual_commit_secs`; under
`vad` no message carries the `commit` field. -/
theorem manual_commit_iff_elapsed :
    (∀ (secs : ℚ) (pt : Option String) (sr : Nat) (t0 : ℚ)
        (inputs : List (List Nat × ℚ)),
      ∀ m ∈ sendAudio "vad" secs pt sr t0 inputs, m.commit = none)
    ∧ (∀ (secs : ℚ) (pt : Option String) (sr : Nat) (t0 : ℚ)
        (inputs : List (List Nat × ℚ)) (i : Nat), i < inputs.length →
      (((sendAudio "manual" secs pt sr t0 inputs).getD i default).commit = some true
        ↔ secs ≤ (inputs.getD i default).2 -
            lastTrueBefore t0 ((((sendAudio "manual" secs pt sr t0 inputs).map
              OutMsg.commit).zip (inputs.map Prod.snd)).take i))) := by
  constructor
  · intro secs pt sr t0 inputs m hm
    exact sendRun_vad_commit secs pt sr inputs ⟨true, t0⟩ m hm
  · intro secs pt sr t0 inputs i hi
    rw [show sendAudio "manual" secs pt sr t0 inputs
        = sendRun "manual" secs pt sr ⟨true, t0⟩ inputs from rfl,
      sendRun_manual_commit secs pt sr inputs true t0 i hi]
    simp

/-- Witness for C2: with threshold 2 and times 1, 2, 4 from session
start 0, the second message commits. -/
theorem manual_commit_iff_elapsed_witness :
    ((sendAudio "vad" 2 none 16000 0 [([0], 1)]).getD 0 default).commit = none
    ∧ (((sendAudio "manual" 2 none 16000 0
          [([0], 1), ([1], 2), ([2], 4)]).getD 1 default).commit = some true
        ↔ (2 : ℚ) ≤ (([([0], 1), ([1], 2), ([2], 4)] :
              List (List Nat × ℚ)).getD 1 default).2 -
            lastTrueBefore 0 ((((sendAudio "manual" 2 none 16000 0
              [([0], 1), ([1], 2), ([2], 4)]).map OutMsg.commit).zip
              (([([0], 1), ([1], 2), ([2], 4)] :
                List (List Nat × ℚ)).map Prod.snd)).take 1)) := by
  constructor
  · exact manual_commit_iff_elapsed.1 2 none 16000 0 [([0], 1)] _ (by decide)
  · exact manual_commit_iff_elapsed.2 2 none 16000 0 [([0], 1), ([1], 2), ([2], 4)] 1
      (by decide)

/-- C4: `previous_text` appears exactly on the first transmitted
message and only when a non-empty value was configured; every later
message, and every message under an absent or empty configuration,
omits the field. -/
theorem previous_text_first_message_only (strategy : String) (secs : ℚ)
    (pt : Option String) (sr : Nat) (t0 : ℚ) (inputs : List (List Nat × ℚ))
    (i : Nat) (h : i < inputs.length) :
    ((sendAudio strategy secs pt sr t0 inputs).getD i default).previousText
      = if i = 0 ∧ pt.getD "" ≠ "" then pt else none := by
  match inputs, h with
  | (c, t) :: rest, h2 =>
    have hrun : sendAudio strategy secs pt sr t0 ((c, t) :: rest)
        = (sendStep strategy secs pt sr ⟨true, t0⟩ c t).2 ::
          sendRun strategy secs pt sr (sendStep strategy secs pt sr ⟨true, t0⟩ c t).1 rest := rfl
    rw [hrun]
    cases i with
    | zero =>
      rw [List.getD_cons_zero, sendStep_prevText]
      by_cases hp : pt.getD "" = "" <;> simp [hp]
    | succ j =>
      have hj : j < rest.length := by simpa using h2
      rw [List.getD_cons_succ]
      have hlen : j < (sendRun strategy secs pt sr
          (sendStep strategy secs pt sr ⟨true, t0⟩ c t).1 rest).length := by
        rw [sendRun_length]; exact hj
      have hmem : (sendRun strategy secs pt sr
          (sendStep strategy secs pt sr ⟨true, t0⟩ c t).1 rest).getD j default
          ∈ sendRun strategy secs pt sr (sendStep strategy secs pt sr ⟨true, t0⟩ c t).1 rest := by
        rw [List.getD_eq_getElem?_getD, List.getElem?_eq_getElem hlen]
        exact List.getElem_mem hlen
      rw [sendRun_prevText_of_notFirst strategy secs pt sr rest _
        (sendStep_fst_firstChunk _ _ _ _ _ _ _) _ hmem]
      simp

/-- Witness for C4: with `previous_text` configured as `"ctx"`, the
first of two messages carries it and the second does not. -/
theorem previous_text_first_message_only_witness :
    ((sendAudio "vad" 1 (some "ctx") 16000 0 [([1], 0), ([2], 1)]).getD 0
        default).previousText = some "ctx"
    ∧ ((sendAudio "vad" 1 (some "ctx") 16000 0 [([1], 0), ([2], 1)]).getD 1
        default).previousText = none := by
  constructor
  · have h := previous_text_first_message_only "vad" 1 (some "ctx") 16000 0
      [([1], 0), ([2], 1)] 0 (by decide)
    simpa using h
  · have h := previous_text_first_message_only "vad" 1 (some "ctx") 16000 0
      [([1], 0), ([2], 1)] 1 (by decide)
    simpa using h

/-- C5: when the API key is absent from the process environment
(unset or empty, both falsy) and the fallback dotfile yields no valid
entry (missing file or every line rejected), `load_api_key` raises the
configuration error, and `run` — which calls `load_api_key` on its
first line — performs no connection attempt. -/
theorem missing_key_config_error (envKey : Option String)
    (homeEnvLines : Option (List String)) (model : String) (sr : Nat)
    (cs : String) (ts : Bool) (lang : Option String)
    (henv : envKey.getD "" = "")
    (hfile : ∀ l ∈ homeEnvLines.getD [], parseEnvLine l = none) :
    load_api_key envKey homeEnvLines
      = Except.error "ELEVENLABS_API_KEY not found. Set it in env or in ~/.env."
    ∧ runStartup envKey homeEnvLines model sr cs ts lang
      = ([], some "ELEVENLABS_API_KEY not found. Set it in env or in ~/.env.")
    ∧ ∀ u, RunAction.connectAttempt u
        ∉ (runStartup envKey homeEnvLines model sr cs ts lang).1 := by
  have hload : load_api_key envKey homeEnvLines
      = Except.error "ELEVENLABS_API_KEY not found. Set it in env or in ~/.env." := by
    unfold load_api_key
    rw [if_neg (by simp [henv])]
    cases homeEnvLines with
    | none => rfl
    | some lines =>
      have hn : lines.findSome? parseEnvLine = none :=
        List.findSome?_eq_none_iff.mpr (by simpa using hfile)
      simp [hn]
  refine ⟨hload, ?_, ?_⟩
  · unfold runStartup
    rw [hload]
  · intro u
    unfold runStartup
    rw [hload]
    simp

/-- Witness for C5: empty environment value and a dotfile whose lines
are a comment, a foreign variable, an empty-valued key, and a line
without `=`. -/
theorem missing_key_config_error_witness :
    load_api_key (some "") (some ["# comment", "OTHER=x", "ELEVENLABS_API_KEY=",
        "ELEVENLABS_API_KEY"])
      = Except.error "ELEVENLABS_API_KEY not found. Set it in env or in ~/.env."
    ∧ runStartup (some "") (some ["# comment", "OTHER=x", "ELEVENLABS_API_KEY=",
        "ELEVENLABS_API_KEY"]) "scribe_v2_realtime" 16000 "vad" false none
      = ([], some "ELEVENLABS_API_KEY not found. Set it in env or in ~/.env.")
    ∧ ∀ u, RunAction.connectAttempt u
        ∉ (runStartup (some "") (some ["# comment", "OTHER=x", "ELEVENLABS_API_KEY=",
            "ELEVENLABS_API_KEY"]) "scribe_v2_realtime" 16000 "vad" false none).1 :=
  missing_key_config_error (some "")
    (some ["# comment", "OTHER=x", "ELEVENLABS_API_KEY=", "ELEVENLABS_API_KEY"])
    "scribe_v2_realtime" 16000 "vad" false none (by decide) (by decide)

/-- C6: `main` returns only 0 or 1: 0 on `--list-devices` (with
dependencies present), on clean completion and on `KeyboardInterrupt`;
1 when a dependency is missing or any other exception escapes the run. -/
theorem exit_codes (deps : List String) (ld : Bool) (oc : RunOutcome) :
    (mainExit deps ld oc = 0 ∨ mainExit deps ld oc = 1)
    ∧ (deps = [] → ld = true → mainExit deps ld oc = 0)
    ∧ (deps = [] → ld = false → oc = RunOutcome.completed → mainExit deps ld oc = 0)
    ∧ (deps = [] → ld = false → oc = RunOutcome.keyboardInterrupt →
        mainExit deps ld oc = 0)
    ∧ (deps ≠ [] → mainExit deps ld oc = 1)
    ∧ (deps = [] → ld = false → ∀ m, oc = RunOutcome.failure m →
        mainExit deps ld oc = 1) := by
  cases deps with
  | nil => cases ld <;> cases oc <;> simp [mainExit]
  | cons d ds => cases ld <;> cases oc <;> simp [mainExit]

/-- Witness for C6 across the four outcome shapes. -/
theorem exit_codes_witness :
    mainExit [] false RunOutcome.keyboardInterrupt = 0
    ∧ mainExit [] true RunOutcome.completed = 0
    ∧ mainExit ["sounddevice"] false RunOutcome.completed = 1
    ∧ mainExit [] false (RunOutcome.failure "boom") = 1 :=
  ⟨(exit_codes [] false RunOutcome.keyboardInterrupt).2.2.2.1 rfl rfl rfl,
   (exit_codes [] true RunOutcome.completed).2.1 rfl rfl,
   (exit_codes ["sounddevice"] false RunOutcome.completed).2.2.2.2.1 (by simp),
   (exit_codes [] false (RunOutcome.failure "boom")).2.2.2.2.2 rfl rfl "boom" rfl⟩

/-- C9: the sender transmits exactly one message per dequeued frame
(equal lengths), in FIFO order, and each message's audio payload is the
base64 encoding of its frame's bytes (the two maps agree position by
position). -/
theorem one_message_per_frame (strategy : String) (secs : ℚ) (pt : Option String)
    (sr : Nat) (t0 : ℚ) (inputs : List (List Nat × ℚ)) :
    (sendAudio strategy secs pt sr t0 inputs).length = inputs.length
    ∧ (sendAudio strategy secs pt sr t0 inputs).map OutMsg.audioBase64
        = inputs.map (fun p => b64encode p.1) :=
  ⟨sendRun_length strategy secs pt sr inputs ⟨true, t0⟩,
   sendRun_audio strategy secs pt sr inputs ⟨true, t0⟩⟩

/-- C10: under the `manual` strategy every message carries the `commit`
field — `some` of the threshold test, so `some false` when the elapsed
time falls short — while under `vad` the field is always absent. -/
theorem manual_commit_field_always_present :
    (∀ (secs : ℚ) (pt : Option String) (sr : Nat) (t0 : ℚ)
        (inputs : List (List Nat × ℚ)) (i : Nat), i < inputs.length →
      ((sendAudio "manual" secs pt sr t0 inputs).getD i default).commit
        = some (decide (secs ≤ (inputs.getD i default).2 -
            lastTrueBefore t0 ((((sendAudio "manual" secs pt sr t0 inputs).map
              OutMsg.commit).zip (inputs.map Prod.snd)).take i))))
    ∧ (∀ (secs : ℚ) (pt : Option String) (sr : Nat) (t0 : ℚ)
        (inputs : List (List Nat × ℚ)),
      ∀ m ∈ sendAudio "vad" secs pt sr t0 inputs, m.commit = none) := by
  constructor
  · intro secs pt sr t0 inputs i hi
    exact sendRun_manual_commit secs pt sr inputs true t0 i hi
  · intro secs pt sr t0 inputs m hm
    exact sendRun_vad_commit secs pt sr inputs ⟨true, t0⟩ m hm

/-- C3: for the inbound sequence partial("he"), partial("hello"),
committed("hello world"), the rendered output is two in-place partial
updates — each a raw write starting with a carriage return and without
a trailing newline — then a newline closing the partial line and
exactly one finalized line for "hello world"; moreover any single event
produces at most one finalized line, and empty partial or committed
text produces no output at all. -/
theorem provisional_then_final_rendering :
    (runEvents false
        [⟨"partial_transcript", some "he", none⟩,
         ⟨"partial_transcript", some "hello", none⟩,
         ⟨"committed_transcript", some "hello world", none⟩]
      = (false,
         [Out.chunk "\r[partial] he   ", Out.chunk "\r[partial] hello   ",
          Out.chunk "\n", Out.line "[final]   hello world"]))
    ∧ startsWithCR "\r[partial] he   " = true
    ∧ endsWithNewline "\r[partial] he   " = false
    ∧ startsWithCR "\r[partial] hello   " = true
    ∧ endsWithNewline "\r[partial] hello   " = false
    ∧ List.countP isFinalLine
        [Out.chunk "\r[partial] he   ", Out.chunk "\r[partial] hello   ",
         Out.chunk "\n", Out.line "[final]   hello world"] = 1
    ∧ (∀ (a : Bool) (e : Event), List.countP isFinalLine ((stepEvent a e).2) ≤ 1)
    ∧ (∀ (a : Bool) (txt sid : Option String), pyStrip (txt.getD "") = "" →
        stepEvent a ⟨"partial_transcript", txt, sid⟩ = (a, [])
        ∧ stepEvent a ⟨"committed_transcript", txt, sid⟩ = (a, [])
        ∧ stepEvent a ⟨"committed_transcript_with_timestamps", txt, sid⟩ = (a, [])) := by
  refine ⟨by decide, by decide, by decide, by decide, by decide, by decide,
    stepEvent_countFinal_le_one, ?_⟩
  intro a txt sid h
  exact ⟨stepEvent_provisional_empty a txt sid h, stepEvent_committed_empty a txt sid h,
    stepEvent_committed_ts_empty a txt sid h⟩

/-- Witness for C3: the quantified tail parts applied at a whitespace
partial and an absent committed text. -/
theorem provisional_then_final_rendering_witness :
    List.countP isFinalLine
        ((stepEvent true ⟨"committed_transcript", some "hello world", none⟩).2) ≤ 1
    ∧ stepEvent true ⟨"partial_transcript", some "  ", none⟩ = (true, [])
    ∧ stepEvent true ⟨"committed_transcript", none, none⟩ = (true, []) := by
  refine ⟨provisional_then_final_rendering.2.2.2.2.2.2.1 true
    ⟨"committed_transcript", some "hello world", none⟩, ?_, ?_⟩
  · exact (provisional_then_final_rendering.2.2.2.2.2.2.2 true (some "  ") none
      (by decide)).1
  · exact (provisional_then_final_rendering.2.2.2.2.2.2.2 true none none
      (by decide)).2.1

/-- C7: an event whose `message_type` contains the error marker is not
fatal: the step closes any active partial line with a newline, prints
the raw event, and the loop goes on to process the remaining events. -/
theorem error_event_nonfatal (a : Bool) (e : Event) (es : List Event)
    (h : hasErrorMarker e.messageType = true) :
    stepEvent a e
      = (false, (if a then [Out.chunk "\n"] else []) ++ [Out.rawEvent e.messageType e])
    ∧ runEvents a (e :: es)
      = ((runEvents false es).1,
         ((if a then [Out.chunk "\n"] else []) ++ [Out.rawEvent e.messageType e])
           ++ (runEvents false es).2) := by
  have h1 : e.messageType ≠ "session_started" := by
    intro hh; rw [hh] at h; exact absurd h (by decide)
  have h2 : e.messageType ≠ "partial_transcript" := by
    intro hh; rw [hh] at h; exact absurd h (by decide)
  have h3 : ¬(e.messageType = "committed_transcript"
      ∨ e.messageType = "committed_transcript_with_timestamps") := by
    rintro (hh | hh) <;> (rw [hh] at h; exact absurd h (by decide))
  have hstep : stepEvent a e
      = (false, (if a then [Out.chunk "\n"] else []) ++ [Out.rawEvent e.messageType e]) := by
    simp only [stepEvent, if_neg h1, if_neg h2, if_neg h3, if_pos h]
  refine ⟨hstep, ?_⟩
  rw [runEvents_cons, hstep]

/-- Witness for C7 at a concrete `transcription_error` event with an
active partial line. -/
theorem error_event_nonfatal_witness :
    stepEvent true ⟨"transcription_error", none, none⟩
      = (false, (if true then [Out.chunk "\n"] else []) ++
          [Out.rawEvent "transcription_error" ⟨"transcription_error", none, none⟩])
    ∧ runEvents true [⟨"transcription_error", none, none⟩]
      = ((runEvents false []).1,
         ((if true then [Out.chunk "\n"] else []) ++
           [Out.rawEvent "transcription_error" ⟨"transcription_error", none, none⟩])
           ++ (runEvents false []).2) :=
  error_event_nonfatal true ⟨"transcription_error", none, none⟩ [] (by decide)

/-- C8: an event matching no recognized discriminator and bearing no
error marker is printed raw (not dropped), the dispatch leaves the
state unchanged, and the loop continues with the remaining events. -/
theorem unknown_event_rendered (a : Bool) (e : Event) (es : List Event)
    (h1 : e.messageType ≠ "session_started")
    (h2 : e.messageType ≠ "partial_transcript")
    (h3 : e.messageType ≠ "committed_transcript")
    (h4 : e.messageType ≠ "committed_transcript_with_timestamps")
    (h5 : hasErrorMarker e.messageType = false) :
    stepEvent a e = (a, [Out.rawEvent e.messageType e])
    ∧ runEvents a (e :: es)
      = ((runEvents a es).1, Out.rawEvent e.messageType e :: (runEvents a es).2) := by
  have h34 : ¬(e.messageType = "committed_transcript"
      ∨ e.messageType = "committed_transcript_with_timestamps") := by
    rintro (hh | hh)
    exacts [h3 hh, h4 hh]
  have h5' : ¬(hasErrorMarker e.messageType = true) := by simp [h5]
  have hstep : stepEvent a e = (a, [Out.rawEvent e.messageType e]) := by
    simp only [stepEvent, if_neg h1, if_neg h2, if_neg h34, if_neg h5']
  refine ⟨hstep, ?_⟩
  rw [runEvents_cons, hstep]
  rfl

/-- Witness for C8 at a concrete unrecognized `ping` event. -/
theorem unknown_event_rendered_witness :
    stepEvent true ⟨"ping", none, none⟩
      = (true, [Out.rawEvent "ping" ⟨"ping", none, none⟩])
    ∧ runEvents true [⟨"ping", none, none⟩]
      = ((runEvents true []).1,
         Out.rawEvent "ping" ⟨"ping", none, none⟩ :: (runEvents true []).2) :=
  unknown_event_rendered true ⟨"ping", none, none⟩ []
    (by decide) (by decide) (by decide) (by decide) (by decide)

/-- Witness for C10: a single frame dequeued 1 second after session
start with a 10-second threshold gets `commit = some false`, not an
absent field. -/
theorem manual_commit_field_always_present_witness :
    ((sendAudio "manual" 10 none 16000 0 [([0], 1)]).getD 0 default).commit
      = some (decide ((10 : ℚ) ≤ (([([0], 1)] :
            List (List Nat × ℚ)).getD 0 default).2 -
          lastTrueBefore 0 ((((sendAudio "manual" 10 none 16000 0 [([0], 1)]).map
            OutMsg.commit).zip (([([0], 1)] :
              List (List Nat × ℚ)).map Prod.snd)).take 0))) :=
  manual_commit_field_always_present.1 10 none 16000 0 [([0], 1)] 0 (by decide)

end Stt
